import Mathlib

/-!
Verification of the repository against its specification.

The repository has four parts:
* problem4 (`sum_to_n.ts`): three implementations of the sum 1 + 2 + ... + n;
* problem5 (`server.ts`): an Express CRUD server over a SQLite `resources`
  table;
* problem2 (`SwapForm.jsx`): a currency-swap React form (not targeted by any
  claim);
* problem6 (`README.md`): a design document for a real-time scoreboard API
  service.  That subsystem exists in the repository only as documentation —
  the spec's scoreboard sections were written from the problem6 design
  document, and no scoreboard code exists.  Its operations are therefore
  modelled here from the spec and marked as such.

Shallow embedding conventions: JavaScript numbers in problem4 are modelled as
`Int` (the file's stated assumption keeps every result below
`Number.MAX_SAFE_INTEGER`, where JS arithmetic is exact); SQLite rows become
structures over `Nat`/`String`/`Option String`; `undefined` request-body
fields become `none`; timestamps are `Nat`.
-/

/-! ## Problem 4: `sum_to_n` (src/problem2/src/components/SwapForm.jsx, lines 1067-1106) -/

/-- The body of implementation A's `for` loop: `sumLoop k` is the value of
`sum` after the iterations `i = 1 .. k`. -/
def sumLoop : Nat → Int
  | 0 => 0
  | k + 1 => sumLoop k + (k + 1)

/-- Implementation A (iterative loop): `if (n <= 0) return 0;` then
`for (let i = 1; i <= n; i++) sum += i`. -/
def sum_to_n_a (n : Int) : Int :=
  if n ≤ 0 then 0 else sumLoop n.toNat

/-- Implementation B (recursion): `if (n <= 0) return 0; if (n === 1) return 1;
return n + sum_to_n_b(n - 1);`. -/
def sum_to_n_b (n : Int) : Int :=
  if n ≤ 0 then 0
  else if n = 1 then 1
  else n + sum_to_n_b (n - 1)
termination_by n.toNat
decreasing_by omega

/-- Implementation C (Gauss formula): `if (n <= 0) return 0;
return (n * (n + 1)) / 2;`.  For `n ≥ 1` the product `n * (n + 1)` is a
nonnegative even integer, so JS division and integer division agree exactly. -/
def sum_to_n_c (n : Int) : Int :=
  if n ≤ 0 then 0 else n * (n + 1) / 2

theorem sumLoop_closed (k : Nat) : 2 * sumLoop k = k * (k + 1) := by
  induction k with
  | zero => simp [sumLoop]
  | succ m ih =>
    simp only [sumLoop]
    push_cast
    push_cast at ih
    ring_nf
    ring_nf at ih
    omega

theorem sum_to_n_b_eq_a (n : Int) : sum_to_n_b n = sum_to_n_a n := by
  by_cases h0 : n ≤ 0
  · rw [sum_to_n_b, sum_to_n_a]
    simp [h0]
  · have hpos : 0 < n := by omega
    -- induction on the natural number n.toNat
    obtain ⟨k, hk⟩ : ∃ k : Nat, n = (k : Int) + 1 := ⟨(n - 1).toNat, by omega⟩
    subst hk
    clear h0 hpos
    induction k with
    | zero =>
      rw [sum_to_n_b, sum_to_n_a]
      norm_num [sumLoop]
    | succ m ih =>
      rw [sum_to_n_b, sum_to_n_a]
      push_cast
      have hm : ¬ ((m : Int) + 1 + 1 ≤ 0) := by omega
      have hm1 : ¬ ((m : Int) + 1 + 1 = 1) := by omega
      rw [if_neg hm, if_neg hm1]
      have harg : ((m : Int) + 1 + 1 - 1) = (m : Int) + 1 := by ring
      rw [harg, ih]
      rw [sum_to_n_a]
      have hm2 : ¬ ((m : Int) + 1 ≤ 0) := by omega
      rw [if_neg hm2]
      have ht1 : ((m : Int) + 1).toNat = m + 1 := by omega
      have ht2 : ((m : Int) + 1 + 1).toNat = m + 2 := by omega
      rw [ht1, ht2]
      show (m : Int) + 1 + 1 + sumLoop (m + 1) = sumLoop (m + 2)
      show (m : Int) + 1 + 1 + sumLoop (m + 1) = sumLoop (m + 1) + ((m : Nat) + 2)
      ring

theorem sum_to_n_c_eq_a (n : Int) : sum_to_n_c n = sum_to_n_a n := by
  by_cases h0 : n ≤ 0
  · simp [sum_to_n_c, sum_to_n_a, h0]
  · simp only [sum_to_n_c, sum_to_n_a, h0, if_false]
    have h2 : 2 * sumLoop n.toNat = (n.toNat : Int) * (n.toNat + 1) := sumLoop_closed n.toNat
    have hn : (n.toNat : Int) = n := by omega
    rw [hn] at h2
    omega

/-- C8: the three `sum_to_n` implementations agree for every integer `n`;
for `n ≥ 1` the common value is `n * (n + 1) / 2` and for `n ≤ 0` it is `0`
(exact integer arithmetic, per the file's stated `MAX_SAFE_INTEGER`
assumption, modelled by `Int`). -/
theorem sum_to_n_equiv (n : Int) :
    sum_to_n_a n = sum_to_n_b n ∧ sum_to_n_b n = sum_to_n_c n ∧
    (1 ≤ n → sum_to_n_a n = n * (n + 1) / 2) ∧
    (n ≤ 0 → sum_to_n_a n = 0) := by
  refine ⟨(sum_to_n_b_eq_a n).symm, ?_, ?_, ?_⟩
  · rw [sum_to_n_b_eq_a, sum_to_n_c_eq_a]
  · intro h1
    rw [← sum_to_n_c_eq_a]
    simp [sum_to_n_c, show ¬ n ≤ 0 by omega]
  · intro h0
    simp [sum_to_n_a, h0]

/-- Witness for C8 at `n = 5`: all three implementations return 15. -/
theorem sum_to_n_equiv_witness :
    sum_to_n_a 5 = sum_to_n_b 5 ∧ sum_to_n_b 5 = sum_to_n_c 5 ∧
    sum_to_n_a 5 = 5 * (5 + 1) / 2 ∧ sum_to_n_a 5 = 15 := by
  obtain ⟨h1, h2, h3, _⟩ := sum_to_n_equiv 5
  refine ⟨h1, h2, h3 (by norm_num), ?_⟩
  rw [← sum_to_n_c_eq_a]
  rfl

/-! ## Problem 5: CRUD server (src/problem5/src/server.ts, src/problem5/src/types.ts)

A row of the SQLite `resources` table.  `id` is the autoincrement primary
key; `description` is a nullable column; timestamps are abstract `Nat`
instants (`CURRENT_TIMESTAMP`).  Request bodies are modelled with
`Option String` fields, `none` meaning the field is absent (`undefined`). -/

/-- JavaScript `String.prototype.trim`, modelled structurally (strip leading
and trailing whitespace) so that concrete instances reduce by `rfl`. -/
def String.jsTrim (s : String) : String :=
  ⟨((s.data.dropWhile Char.isWhitespace).reverse.dropWhile
      Char.isWhitespace).reverse⟩

structure Resource where
  id : Nat
  name : String
  description : Option String
  status : String
  createdAt : Nat
  updatedAt : Nat
deriving DecidableEq, Repr

/-- `CreateResourceDto` (types.ts): `name` is required by the handler but the
body may omit it, so all three fields are optional here. -/
structure CreateResourceDto where
  name : Option String
  description : Option String
  status : Option String
deriving DecidableEq, Repr

/-- `UpdateResourceDto` (types.ts): all fields optional. -/
structure UpdateResourceDto where
  name : Option String
  description : Option String
  status : Option String
deriving DecidableEq, Repr

/-- The `resources` table plus the autoincrement counter. -/
structure Db where
  rows : List Resource
  nextId : Nat
deriving DecidableEq, Repr

inductive PostResponse where
  | badRequest (msg : String)
  | created (row : Resource)
deriving DecidableEq, Repr

inductive PutResponse where
  | badRequest (msg : String)
  | notFound
  | okUpdated (row : Resource)
deriving DecidableEq, Repr

/-- `router.post('/')` (server.ts lines 64-94): reject when `name` is absent
(`!name`, JS falsiness) or trims to the empty string; otherwise INSERT with
`name.trim()`, `description?.trim() || null` and `status || 'active'`, then
respond 201 with the row re-SELECTed by `lastInsertRowid`. -/
def createResource (db : Db) (now : Nat) (body : CreateResourceDto) :
    PostResponse × Db :=
  match body.name with
  | none => (.badRequest "Name is required", db)
  | some nm =>
    if nm.jsTrim = "" then (.badRequest "Name is required", db)
    else
      let desc : Option String :=
        match body.description with
        | none => none
        | some d => if d.jsTrim = "" then none else some d.jsTrim
      let st : String :=
        match body.status with
        | none => "active"
        | some s => if s = "" then "active" else s
      let row : Resource :=
        { id := db.nextId, name := nm.jsTrim, description := desc, status := st,
          createdAt := now, updatedAt := now }
      (.created row, { rows := db.rows ++ [row], nextId := db.nextId + 1 })

/-- The effect of `router.put('/:id')`'s dynamically built
`UPDATE resources SET ...` on one row: each field present in the body is
written (name trimmed, description trimmed with `|| null`, status as-is) and
`updatedAt = CURRENT_TIMESTAMP`. -/
def applyUpdate (body : UpdateResourceDto) (now : Nat) (r : Resource) :
    Resource :=
  { r with
    name := match body.name with | none => r.name | some nm => nm.jsTrim
    description :=
      match body.description with
      | none => r.description
      | some d => if d.jsTrim = "" then none else some d.jsTrim
    status := match body.status with | none => r.status | some s => s
    updatedAt := now }

/-- `router.put('/:id')` (server.ts lines 176-234): 404 when no row has the
id; 400 when `name` is present but trims empty; 400 when no field is
present; otherwise UPDATE the matching row and respond with the row
re-SELECTed by id. -/
def updateResource (db : Db) (rid : Nat) (now : Nat)
    (body : UpdateResourceDto) : PutResponse × Db :=
  match db.rows.find? (fun r => r.id = rid) with
  | none => (.notFound, db)
  | some r0 =>
    if (match body.name with | some nm => nm.jsTrim == "" | none => false) then
      (.badRequest "Name cannot be empty", db)
    else if body.name = none ∧ body.description = none ∧ body.status = none then
      (.badRequest "No fields to update", db)
    else
      let rows' := db.rows.map
        (fun r => if r.id = rid then applyUpdate body now r else r)
      let sel := (rows'.find? (fun r => r.id = rid)).getD
        (applyUpdate body now r0)
      (.okUpdated sel, { rows := rows', nextId := db.nextId })

/-- POST rejects exactly when the name is absent or blank after trimming. -/
def postNameBad (body : CreateResourceDto) : Prop :=
  body.name = none ∨ ∃ nm, body.name = some nm ∧ nm.jsTrim = ""

instance (body : CreateResourceDto) : Decidable (postNameBad body) := by
  unfold postNameBad
  cases h : body.name with
  | none => exact .isTrue (.inl rfl)
  | some nm =>
    by_cases ht : nm.jsTrim = ""
    · exact .isTrue (.inr ⟨nm, rfl, ht⟩)
    · refine .isFalse ?_
      rintro (hc | ⟨x, hx, hxt⟩)
      · simp at hc
      · cases hx; exact ht hxt

/-- PUT rejects with 400 exactly when the body has no updatable field or the
name is present but blank after trimming. -/
def putBodyBad (body : UpdateResourceDto) : Prop :=
  (body.name = none ∧ body.description = none ∧ body.status = none) ∨
  ∃ nm, body.name = some nm ∧ nm.jsTrim = ""

instance (body : UpdateResourceDto) : Decidable (putBodyBad body) := by
  unfold putBodyBad
  cases h : body.name with
  | none => exact instDecidableOr
  | some nm =>
    by_cases ht : nm.jsTrim = ""
    · exact .isTrue (.inr ⟨nm, rfl, ht⟩)
    · refine decidable_of_iff (False) ?_
      constructor
      · intro hc; exact hc.elim
      · rintro (⟨hc, _⟩ | ⟨x, hx, hxt⟩)
        · simp at hc
        · cases hx; exact ht hxt

theorem find?_map_keep_id (l : List Resource) (rid : Nat)
    (g : Resource → Resource) (hg : ∀ r, (g r).id = r.id) (r0 : Resource)
    (h : l.find? (fun r => r.id = rid) = some r0) :
    (l.map (fun r => if r.id = rid then g r else r)).find?
      (fun r => r.id = rid) = some (g r0) := by
  induction l with
  | nil => simp at h
  | cons a t ih =>
    by_cases ha : a.id = rid
    · rw [List.find?_cons_of_pos _ (by simpa using ha)] at h
      obtain rfl : a = r0 := by simpa using h
      simp only [List.map_cons, if_pos ha]
      rw [List.find?_cons_of_pos]
      simpa [hg] using ha
    · rw [List.find?_cons_of_neg _ (by simpa using ha)] at h
      simp only [List.map_cons, if_neg ha]
      rw [List.find?_cons_of_neg _ (by simpa using ha)]
      exact ih h

/-- C10: `POST /api/resources` returns 400 and inserts no row exactly when
`name` is absent or trims to the empty string; otherwise it inserts exactly
one row in which `status` defaults to `'active'` when omitted, `description`
is stored as `null` when omitted or blank, `name` is stored trimmed, and it
responds 201 with the inserted row. -/
theorem createResource_spec (db : Db) (now : Nat) (body : CreateResourceDto) :
    ((∃ m, (createResource db now body).1 = .badRequest m) ↔ postNameBad body) ∧
    (postNameBad body → (createResource db now body).2 = db) ∧
    (¬ postNameBad body →
      ∃ nm row, body.name = some nm ∧
        (createResource db now body).1 = .created row ∧
        (createResource db now body).2.rows = db.rows ++ [row] ∧
        row.name = nm.jsTrim ∧
        (body.status = none → row.status = "active") ∧
        (body.description = none → row.description = none) ∧
        (∀ d, body.description = some d → d.jsTrim = "" → row.description = none) ∧
        (∀ d, body.description = some d → d.jsTrim ≠ "" →
          row.description = some d.jsTrim)) := by
  cases hname : body.name with
  | none =>
    have hbad : postNameBad body := .inl hname
    refine ⟨⟨fun _ => hbad, fun _ => ?_⟩, fun _ => ?_, fun hc => absurd hbad hc⟩
    · exact ⟨"Name is required", by simp [createResource, hname]⟩
    · simp [createResource, hname]
  | some nm =>
    by_cases ht : nm.jsTrim = ""
    · have hbad : postNameBad body := .inr ⟨nm, hname, ht⟩
      refine ⟨⟨fun _ => hbad, fun _ => ?_⟩, fun _ => ?_, fun hc => absurd hbad hc⟩
      · exact ⟨"Name is required", by simp [createResource, hname, ht]⟩
      · simp [createResource, hname, ht]
    · have hgood : ¬ postNameBad body := by
        rintro (hc | ⟨x, hx, hxt⟩)
        · rw [hname] at hc; exact Option.noConfusion hc
        · rw [hname] at hx; cases hx; exact ht hxt
      refine ⟨⟨?_, fun hb => absurd hb hgood⟩, fun hb => absurd hb hgood, fun _ => ?_⟩
      · rintro ⟨m, hm⟩
        simp [createResource, hname, ht] at hm
      · refine ⟨nm,
          { id := db.nextId, name := nm.jsTrim,
            description :=
              match body.description with
              | none => none
              | some d => if d.jsTrim = "" then none else some d.jsTrim,
            status :=
              match body.status with
              | none => "active"
              | some s => if s = "" then "active" else s,
            createdAt := now, updatedAt := now },
          rfl, ?_, ?_, ?_, ?_, ?_, ?_, ?_⟩
        · simp [createResource, hname, ht]
        · simp [createResource, hname, ht]
        · simp [createResource, hname, ht]
        · intro hs; simp [hs]
        · intro hd; simp [hd]
        · intro d hd hdt; simp [hd, hdt]
        · intro d hd hdt; simp [hd, hdt]

/-- Witness for C10: posting `{name: " Widget ", description: "  "}` to an
empty table inserts one row with trimmed name, null description and default
status `'active'`. -/
theorem createResource_spec_witness :
    ∃ nm row,
      (CreateResourceDto.mk (some " Widget ") (some "  ") none).name = some nm ∧
      (createResource ⟨[], 1⟩ 0 ⟨some " Widget ", some "  ", none⟩).1 =
        .created row ∧
      (createResource ⟨[], 1⟩ 0 ⟨some " Widget ", some "  ", none⟩).2.rows =
        (Db.mk [] 1).rows ++ [row] ∧
      row.name = nm.jsTrim ∧
      ((CreateResourceDto.mk (some " Widget ") (some "  ") none).status = none →
        row.status = "active") ∧
      ((CreateResourceDto.mk (some " Widget ") (some "  ") none).description =
          none → row.description = none) ∧
      (∀ d, (CreateResourceDto.mk (some " Widget ") (some "  ") none).description
          = some d → d.jsTrim = "" → row.description = none) ∧
      (∀ d, (CreateResourceDto.mk (some " Widget ") (some "  ") none).description
          = some d → d.jsTrim ≠ "" → row.description = some d.jsTrim) :=
  (createResource_spec ⟨[], 1⟩ 0 ⟨some " Widget ", some "  ", none⟩).2.2
    (by decide)

/-- C9: `PUT /api/resources/:id` on an existing resource modifies only the
fields present in the request body plus `updatedAt`; `id` and `createdAt`
keep their prior values and all other rows are untouched; if the body has
none of `name`, `description`, `status`, or `name` is present but trims to
the empty string, the handler returns 400 and the row is unchanged. -/
theorem updateResource_spec (db : Db) (rid : Nat) (now : Nat)
    (body : UpdateResourceDto) (r0 : Resource)
    (hex : db.rows.find? (fun r => r.id = rid) = some r0) :
    (putBodyBad body →
      (∃ m, (updateResource db rid now body).1 = .badRequest m) ∧
      (updateResource db rid now body).2 = db) ∧
    (¬ putBodyBad body →
      (updateResource db rid now body).1 =
        .okUpdated (applyUpdate body now r0) ∧
      (updateResource db rid now body).2.rows =
        db.rows.map (fun r => if r.id = rid then applyUpdate body now r else r) ∧
      (updateResource db rid now body).2.nextId = db.nextId ∧
      (∀ r, r ∈ db.rows → r.id ≠ rid →
        r ∈ (updateResource db rid now body).2.rows)) ∧
    (∀ r, (applyUpdate body now r).id = r.id ∧
      (applyUpdate body now r).createdAt = r.createdAt ∧
      (applyUpdate body now r).updatedAt = now ∧
      (body.name = none → (applyUpdate body now r).name = r.name) ∧
      (body.description = none →
        (applyUpdate body now r).description = r.description) ∧
      (body.status = none → (applyUpdate body now r).status = r.status)) := by
  refine ⟨?_, ?_, ?_⟩
  · intro hbad
    rcases hbad with ⟨hn, hd, hs⟩ | ⟨nm, hnm, ht⟩
    · by_cases hblank :
        (match body.name with | some nm => nm.jsTrim == "" | none => false) = true
      · refine ⟨⟨"Name cannot be empty", ?_⟩, ?_⟩ <;>
          simp [updateResource, hex, hblank]
      · refine ⟨⟨"No fields to update", ?_⟩, ?_⟩ <;>
          simp [updateResource, hex, hblank, hn, hd, hs]
    · have hblank :
        (match body.name with | some nm => nm.jsTrim == "" | none => false) = true := by
        rw [hnm]; simpa using ht
      refine ⟨⟨"Name cannot be empty", ?_⟩, ?_⟩ <;>
        simp [updateResource, hex, hblank]
  · intro hgood
    have hblank :
        (match body.name with | some nm => nm.jsTrim == "" | none => false) = false := by
      cases hb : body.name with
      | none => rfl
      | some nm =>
        simp only [beq_eq_false_iff_ne, ne_eq]
        intro hc
        exact hgood (.inr ⟨nm, hb, hc⟩)
    have hfields : ¬ (body.name = none ∧ body.description = none ∧
        body.status = none) := fun hc => hgood (.inl hc)
    have hsel := find?_map_keep_id db.rows rid (applyUpdate body now)
      (fun r => rfl) r0 hex
    refine ⟨?_, ?_, ?_, ?_⟩
    · simp [updateResource, hex, hblank, hfields, hsel]
    · simp [updateResource, hex, hblank, hfields]
    · simp [updateResource, hex, hblank, hfields]
    · intro r hr hne
      simp only [updateResource, hex, hblank, Bool.false_eq_true, if_false,
        if_neg hfields]
      exact List.mem_map.2 ⟨r, hr, by simp [hne]⟩
  · intro r
    refine ⟨rfl, rfl, rfl, ?_, ?_, ?_⟩
    · intro hn; simp [applyUpdate, hn]
    · intro hd; simp [applyUpdate, hd]
    · intro hs; simp [applyUpdate, hs]

/-- Witness for C9: a status-only PUT on an existing row rewrites `status`
and `updatedAt` and preserves `id`, `createdAt`, `name`, `description`. -/
theorem updateResource_spec_witness :
    (updateResource ⟨[⟨1, "Old", some "od", "active", 5, 5⟩], 2⟩ 1 9
        ⟨none, none, some "inactive"⟩).1 =
      .okUpdated ⟨1, "Old", some "od", "inactive", 5, 9⟩ ∧
    (updateResource ⟨[⟨1, "Old", some "od", "active", 5, 5⟩], 2⟩ 1 9
        ⟨none, none, some "inactive"⟩).2.rows =
      [⟨1, "Old", some "od", "inactive", 5, 9⟩] := by
  have h := (updateResource_spec ⟨[⟨1, "Old", some "od", "active", 5, 5⟩], 2⟩
      1 9 ⟨none, none, some "inactive"⟩ ⟨1, "Old", some "od", "active", 5, 5⟩
      rfl).2.1 (by rintro (⟨_, _, hs⟩ | ⟨nm, hnm, _⟩) <;> simp_all)
  obtain ⟨h1, h2, -, -⟩ := h
  exact ⟨by rw [h1]; rfl, by rw [h2]; rfl⟩

/-! ## Problem 6: scoreboard service (design document only)

The scoreboard subsystem exists in the repository solely as the problem6
architecture document; there is no implementation code.  Every definition in
this section is therefore modelled from the spec (sections 2-4 and 7-8 of
the specification, which were written from that document). -/

namespace Scoreboard

/-- Modelled from the spec: data model section 3, `ScoreRecord` — one row per
user, `score` a nonnegative integer, `lastUpdated` an abstract instant. -/
structure ScoreRecord where
  userId : Nat
  score : Nat
  lastUpdated : Nat
deriving DecidableEq, Repr

/-- Modelled from the spec: data model section 3, `ActionRecord` — uniqueness
on `(userId, actionId)` is the idempotency guard. -/
structure ActionRecord where
  userId : Nat
  actionId : Nat
  actionType : String
  increment : Nat
  timestamp : Nat
deriving DecidableEq, Repr

/-- Modelled from the spec: configuration — the per-actionType maximum
increment map (section 4.1), the rate-limiter window size `W` and maximum
count `M` (section 4.4), the staleness bound `epsilon` and the top-K size
`K` (section 4.2, default 10). -/
structure Config where
  maxIncrement : List (String × Nat)
  windowSize : Nat
  maxCount : Nat
  epsilon : Nat
  K : Nat
deriving DecidableEq, Repr

/-- Modelled from the spec: error taxonomy of section 7 (NotFound concerns
only the rank query, which no claim targets). -/
inductive SubmitError where
  | ValidationError
  | DuplicateAction
  | RateLimited
  | InternalError
deriving DecidableEq, Repr

/-- Modelled from the spec: `submitAction`'s `{newScore, rank}` output or a
failure (section 4.1). -/
inductive SubmitResult where
  | ok (newScore : Nat) (rank : Nat)
  | err (e : SubmitError)
deriving DecidableEq, Repr

/-- Modelled from the spec: the delta event published to the Broadcast Hub
after a committed update (section 4.1 step 5). -/
structure DeltaEvent where
  userId : Nat
  newScore : Nat
deriving DecidableEq, Repr

/-- Modelled from the spec: a Broadcast Hub subscriber owning a bounded event
queue of capacity `cap`, oldest event first (section 4.3). -/
structure Subscriber where
  handle : Nat
  cap : Nat
  queue : List DeltaEvent
deriving DecidableEq, Repr

/-- Modelled from the spec: the Leaderboard Cache — the cached top-K
sequence, its generation timestamp, the targeted-invalidation flag of
section 4.2, and `snapshot`, the Score Store state the cache was computed
from (a ghost field recording provenance for the staleness statement). -/
structure CacheState where
  entries : List ScoreRecord
  genTime : Nat
  stale : Bool
  snapshot : List ScoreRecord
deriving DecidableEq, Repr

/-- Modelled from the spec: the state owned by the core — Score Store,
Idempotency Ledger, Rate Limiter counters keyed by `(userId, windowBucket)`,
Leaderboard Cache and the Broadcast Hub subscriber set (section 2). -/
structure CoreState where
  scores : List ScoreRecord
  actions : List ActionRecord
  limiter : List ((Nat × Nat) × Nat)
  cache : CacheState
  subs : List Subscriber
deriving DecidableEq, Repr

/-- Modelled from the spec: the rank order of section 3 — score descending,
ties broken by earliest `lastUpdated`. -/
def rankOrder (a b : ScoreRecord) : Prop :=
  b.score < a.score ∨ (a.score = b.score ∧ a.lastUpdated ≤ b.lastUpdated)

instance : DecidableRel rankOrder := fun a b => by
  unfold rankOrder; infer_instance

instance : IsTotal ScoreRecord rankOrder :=
  ⟨by intro a b; unfold rankOrder; omega⟩

instance : IsTrans ScoreRecord rankOrder :=
  ⟨by intro a b c; unfold rankOrder; omega⟩

/-- Modelled from the spec: full recomputation from the Score Store — scan
in descending-score order with the deterministic tie-break (section 4.2). -/
def rankSort (st : List ScoreRecord) : List ScoreRecord :=
  st.insertionSort rankOrder

/-- Modelled from the spec: per-actionType maximum increment lookup
(section 4.1 preconditions). -/
def lookupMax (cfg : Config) (ty : String) : Option Nat :=
  (cfg.maxIncrement.find? (fun p => p.1 = ty)).map (·.2)

/-- Modelled from the spec: input validation — `increment` positive and
bounded by the per-actionType maximum; unknown actionType rejected
(section 4.1 preconditions, section 7 `ValidationError`). -/
def validate (cfg : Config) (ty : String) (inc : Nat) : Bool :=
  decide (0 < inc) &&
    (match lookupMax cfg ty with
     | some mx => decide (inc ≤ mx)
     | none => false)

/-- Modelled from the spec: the window bucket of a fixed-window counter
(section 4.4). -/
def bucketOf (cfg : Config) (now : Nat) : Nat :=
  now / cfg.windowSize

/-- Current counter for a `(userId, windowBucket)` key, 0 when absent. -/
def limCount (lim : List ((Nat × Nat) × Nat)) (k : Nat × Nat) : Nat :=
  ((lim.find? (fun p => p.1 = k)).map (·.2)).getD 0

/-- Store a counter value for a key, replacing any existing entry. -/
def limSet (lim : List ((Nat × Nat) × Nat)) (k : Nat × Nat) (c : Nat) :
    List ((Nat × Nat) × Nat) :=
  if lim.any (fun p => decide (p.1 = k)) then
    lim.map (fun p => if p.1 = k then (k, c) else p)
  else (k, c) :: lim

/-- Modelled from the spec: `allow(userId)` of section 4.4 — window counter
keyed by `(userId, windowBucket)`; a call within quota advances the counter,
a rejected call mutates nothing. -/
def allow (cfg : Config) (lim : List ((Nat × Nat) × Nat)) (u now : Nat) :
    Bool × List ((Nat × Nat) × Nat) :=
  let k := (u, bucketOf cfg now)
  let c := limCount lim k
  if c < cfg.maxCount then (true, limSet lim k (c + 1)) else (false, lim)

/-- Modelled from the spec: the Idempotency Ledger membership test on the
`(userId, actionId)` unique key (sections 4.1 and 4.5). -/
def hasAction (acts : List ActionRecord) (u a : Nat) : Bool :=
  acts.any (fun r => decide (r.userId = u ∧ r.actionId = a))

/-- A user's current score in the Score Store, 0 when the user has no row. -/
def scoreOf (scores : List ScoreRecord) (u : Nat) : Nat :=
  ((scores.find? (fun r => r.userId = u)).map (·.score)).getD 0

/-- Modelled from the spec: the store-side atomic increment of section 4.1
step 3, together with the lifecycle rule of section 3 — the row is created
with `score = increment` on the user's first accepted action. -/
def applyIncrement (scores : List ScoreRecord) (u inc now : Nat) :
    List ScoreRecord :=
  if scores.any (fun r => decide (r.userId = u)) then
    scores.map (fun r =>
      if r.userId = u then
        { r with score := r.score + inc, lastUpdated := now }
      else r)
  else scores ++ [⟨u, inc, now⟩]

/-- The score of the K-th (last) cached entry, `none` when fewer than `K`
entries are cached. -/
def kthCachedScore (c : CacheState) (K : Nat) : Option Nat :=
  if c.entries.length < K then none else c.entries.getLast?.map (·.score)

/-- Modelled from the spec: `notify(userId, newScore)` of section 4.2 —
mark the cache stale when the update can change cache membership or order:
the new score exceeds the current K-th cached score (any score can enter
while fewer than K entries are cached), or the user is already present in
the cached set. -/
def notify (K : Nat) (c : CacheState) (u newScore : Nat) : CacheState :=
  let affects :=
    (match kthCachedScore c K with
     | some s => decide (s < newScore)
     | none => true) ||
    c.entries.any (fun r => decide (r.userId = u))
  if affects then { c with stale := true } else c

/-- Modelled from the spec: `query(limit)` of section 4.2 — serve a prefix
of the cached sequence while the cache is fresh (age under `epsilon`, not
invalidated, limit within K); otherwise recompute synchronously from the
Score Store, replace the cached sequence and reset the generation
timestamp. -/
def query (cfg : Config) (limit now : Nat) (st : List ScoreRecord)
    (c : CacheState) : List ScoreRecord × CacheState :=
  if c.stale = false ∧ now - c.genTime < cfg.epsilon ∧ limit ≤ cfg.K then
    (c.entries.take limit, c)
  else
    let full := rankSort st
    (full.take limit,
     { entries := full.take cfg.K, genTime := now, stale := false,
       snapshot := st })

/-- Modelled from the spec: delivery of one event to one subscriber
(section 4.3) — when the bounded queue is full the hub drops the oldest
queued event and enqueues the new one; otherwise it simply enqueues. -/
def publishOne (e : DeltaEvent) (sub : Subscriber) : Subscriber :=
  if sub.cap ≤ sub.queue.length then
    { sub with queue := sub.queue.tail ++ [e] }
  else
    { sub with queue := sub.queue ++ [e] }

/-- Modelled from the spec: `publish(event)` of section 4.3 — each
subscriber's queue is updated independently; as a total function on hub
state it involves no waiting on any consumer. -/
def publish (e : DeltaEvent) (subs : List Subscriber) : List Subscriber :=
  subs.map (publishOne e)

/-- Modelled from the spec: `subscribe()` of section 4.3 — adds a subscriber
with an empty bounded queue. -/
def subscribe (h cap : Nat) (subs : List Subscriber) : List Subscriber :=
  subs ++ [⟨h, cap, []⟩]

/-- Modelled from the spec: `unsubscribe(handle)` of section 4.3 — removes
the subscriber and discards its queue. -/
def unsubscribe (h : Nat) (subs : List Subscriber) : List Subscriber :=
  subs.filter (fun sub => decide (sub.handle ≠ h))

/-- Modelled from the spec: the store-side rank computation — 1 plus the
number of entries ranked before the user in the full recomputation
(section 4.1 step 6 fallback). -/
def rankIn (st : List ScoreRecord) (u : Nat) : Nat :=
  (rankSort st).findIdx (fun r => decide (r.userId = u)) + 1

/-- Modelled from the spec: `submitAction`'s input (sections 4.1 and 6). -/
structure SubmitArgs where
  userId : Nat
  actionId : Nat
  actionType : String
  increment : Nat
deriving DecidableEq, Repr

/-- Modelled from the spec: the Update Pipeline `submitAction` of
section 4.1 — validation, rate check, idempotency check, then the
ActionRecord insert and score increment as one atomic unit, followed by
cache notify and broadcast.  `storeOk` is the store-transaction oracle: when
`false` the transaction of steps 2-3 fails and the whole update reports
`InternalError` with no store effect (section 7). -/
def submitAction (cfg : Config) (now : Nat) (storeOk : Bool)
    (args : SubmitArgs) (s : CoreState) : SubmitResult × CoreState :=
  if validate cfg args.actionType args.increment = false then
    (.err .ValidationError, s)
  else
    let al := allow cfg s.limiter args.userId now
    if al.1 = false then (.err .RateLimited, { s with limiter := al.2 })
    else if hasAction s.actions args.userId args.actionId then
      (.err .DuplicateAction, { s with limiter := al.2 })
    else if storeOk = false then
      (.err .InternalError, { s with limiter := al.2 })
    else
      let rec0 : ActionRecord :=
        ⟨args.userId, args.actionId, args.actionType, args.increment, now⟩
      let scores' := applyIncrement s.scores args.userId args.increment now
      let newScore := scoreOf scores' args.userId
      (.ok newScore (rankIn scores' args.userId),
       { scores := scores',
         actions := rec0 :: s.actions,
         limiter := al.2,
         cache := notify cfg.K s.cache args.userId newScore,
         subs := publish ⟨args.userId, newScore⟩ s.subs })

/-- Modelled from the spec: `queryTop(limit)` of sections 4.2 and 6 — reads
go to the Leaderboard Cache, which may refresh itself. -/
def queryTop (cfg : Config) (limit now : Nat) (s : CoreState) :
    List ScoreRecord × CoreState :=
  let q := query cfg limit now s.scores s.cache
  (q.1, { s with cache := q.2 })

/-- A batch of `submitAction` calls, each `(now, storeOk, args)`, run in
order; returns the per-call results and the final state. -/
def submitSeq (cfg : Config) (calls : List (Nat × Bool × SubmitArgs))
    (s : CoreState) : List SubmitResult × CoreState :=
  match calls with
  | [] => ([], s)
  | c :: rest =>
    let r := submitAction cfg c.1 c.2.1 c.2.2 s
    let rr := submitSeq cfg rest r.2
    (r.1 :: rr.1, rr.2)

/-- `m` calls for user `u` at time `t`, all with actionType `ty` and
increment `inc`, with the fresh actionIds `a0, a0+1, ..., a0+m-1`. -/
def mkCalls (u : Nat) (ty : String) (inc a0 t : Nat) :
    Nat → List (Nat × Bool × SubmitArgs)
  | 0 => []
  | m + 1 => (t, true, ⟨u, a0, ty, inc⟩) :: mkCalls u ty inc (a0 + 1) t m

end Scoreboard

namespace Scoreboard

theorem scoreOf_applyIncrement (scores : List ScoreRecord) (u inc now : Nat) :
    scoreOf (applyIncrement scores u inc now) u = scoreOf scores u + inc := by
  induction scores with
  | nil => simp [applyIncrement, scoreOf]
  | cons a t ih =>
    by_cases ha : a.userId = u
    · simp [applyIncrement, scoreOf, ha]
    · rw [applyIncrement]
      by_cases hany : t.any (fun r => decide (r.userId = u)) = true
      · rw [if_pos (by simp [ha, hany])]
        rw [applyIncrement, if_pos hany] at ih
        simp only [List.map_cons, if_neg ha]
        show scoreOf _ u = _
        rw [scoreOf, List.find?_cons_of_neg _ (by simpa using ha)]
        rw [scoreOf, List.find?_cons_of_neg _ (by simpa using ha)]
        exact ih
      · rw [if_neg (by simp [ha, hany])]
        rw [applyIncrement, if_neg hany] at ih
        show scoreOf ((a :: t) ++ [⟨u, inc, now⟩]) u = _
        rw [List.cons_append]
        rw [scoreOf, List.find?_cons_of_neg _ (by simpa using ha)]
        rw [scoreOf, List.find?_cons_of_neg _ (by simpa using ha)]
        exact ih

theorem scoreOf_map_ne (l : List ScoreRecord) (u v inc now : Nat)
    (hne : v ≠ u) :
    scoreOf (l.map (fun r =>
      if r.userId = u then
        { r with score := r.score + inc, lastUpdated := now }
      else r)) v = scoreOf l v := by
  induction l with
  | nil => rfl
  | cons a t ih =>
    by_cases ha : a.userId = v
    · have hau : ¬ (a.userId = u) := by rw [ha]; exact hne
      simp only [List.map_cons, if_neg hau]
      rw [scoreOf, List.find?_cons_of_pos _ (by simpa using ha)]
      rw [scoreOf, List.find?_cons_of_pos _ (by simpa using ha)]
    · have hfa : ((if a.userId = u then
          ({ a with score := a.score + inc, lastUpdated := now } : ScoreRecord)
        else a)).userId = a.userId := by split <;> rfl
      simp only [List.map_cons]
      rw [scoreOf, List.find?_cons_of_neg _ (by simp [hfa, ha])]
      rw [scoreOf, List.find?_cons_of_neg _ (by simpa using ha)]
      exact ih

theorem scoreOf_append_ne (l : List ScoreRecord) (u v inc now : Nat)
    (hne : v ≠ u) :
    scoreOf (l ++ [⟨u, inc, now⟩]) v = scoreOf l v := by
  induction l with
  | nil =>
    rw [List.nil_append]
    rw [scoreOf, List.find?_cons_of_neg _ (by simpa using fun h => hne h.symm)]
    rfl
  | cons a t ih =>
    rw [List.cons_append]
    by_cases ha : a.userId = v
    · rw [scoreOf, List.find?_cons_of_pos _ (by simpa using ha)]
      rw [scoreOf, List.find?_cons_of_pos _ (by simpa using ha)]
    · rw [scoreOf, List.find?_cons_of_neg _ (by simpa using ha)]
      rw [scoreOf, List.find?_cons_of_neg _ (by simpa using ha)]
      exact ih

theorem scoreOf_applyIncrement_ne (scores : List ScoreRecord)
    (u v inc now : Nat) (hne : v ≠ u) :
    scoreOf (applyIncrement scores u inc now) v = scoreOf scores v := by
  rw [applyIncrement]
  split
  · exact scoreOf_map_ne scores u v inc now hne
  · exact scoreOf_append_ne scores u v inc now hne

end Scoreboard

namespace Scoreboard

/-- C6: when `submitAction` fails with `RateLimited` or `ValidationError`
the failure is detected before any mutation — the resulting state equals the
prior state, so in particular the ScoreRecord set, the ActionRecord set, the
Leaderboard Cache and the subscriber queues are untouched and no later
pipeline step ran.  (Modelled from the spec: a rejected `allow` call does
not advance the limiter counter, per section 4.1 step 1 / section 8.) -/
theorem early_failure_no_mutation (cfg : Config) (now : Nat) (storeOk : Bool)
    (args : SubmitArgs) (s : CoreState)
    (hres : (submitAction cfg now storeOk args s).1 = .err .ValidationError ∨
            (submitAction cfg now storeOk args s).1 = .err .RateLimited) :
    (submitAction cfg now storeOk args s).2 = s ∧
    (submitAction cfg now storeOk args s).2.scores = s.scores ∧
    (submitAction cfg now storeOk args s).2.actions = s.actions ∧
    (submitAction cfg now storeOk args s).2.cache = s.cache ∧
    (submitAction cfg now storeOk args s).2.subs = s.subs := by
  suffices h : (submitAction cfg now storeOk args s).2 = s by
    exact ⟨h, by rw [h], by rw [h], by rw [h], by rw [h]⟩
  simp only [submitAction] at hres ⊢
  split_ifs at hres ⊢ with h1 h2 h3 h4
  · rfl
  · have hal : allow cfg s.limiter args.userId now = (false, s.limiter) := by
      rw [allow] at h2 ⊢
      split_ifs at h2 ⊢ with hc
      · rfl
    rw [hal]
  · simp at hres
  · simp at hres
  · simp at hres

/-- Witness for C6 at a concrete rate-limited call: `maxCount = 0` rejects
the first submission and leaves the state bitwise unchanged. -/
theorem early_failure_no_mutation_witness :
    (submitAction ⟨[("login", 100)], 60, 0, 5, 10⟩ 0 true ⟨1, 1, "login", 10⟩
        ⟨[], [], [], ⟨[], 0, true, []⟩, []⟩).2 =
      ⟨[], [], [], ⟨[], 0, true, []⟩, []⟩ ∧
    (submitAction ⟨[("login", 100)], 60, 0, 5, 10⟩ 0 true ⟨1, 1, "login", 10⟩
        ⟨[], [], [], ⟨[], 0, true, []⟩, []⟩).2.scores = [] ∧
    (submitAction ⟨[("login", 100)], 60, 0, 5, 10⟩ 0 true ⟨1, 1, "login", 10⟩
        ⟨[], [], [], ⟨[], 0, true, []⟩, []⟩).2.actions = [] ∧
    (submitAction ⟨[("login", 100)], 60, 0, 5, 10⟩ 0 true ⟨1, 1, "login", 10⟩
        ⟨[], [], [], ⟨[], 0, true, []⟩, []⟩).2.cache = ⟨[], 0, true, []⟩ ∧
    (submitAction ⟨[("login", 100)], 60, 0, 5, 10⟩ 0 true ⟨1, 1, "login", 10⟩
        ⟨[], [], [], ⟨[], 0, true, []⟩, []⟩).2.subs = [] :=
  early_failure_no_mutation ⟨[("login", 100)], 60, 0, 5, 10⟩ 0 true
    ⟨1, 1, "login", 10⟩ ⟨[], [], [], ⟨[], 0, true, []⟩, []⟩ (.inr (by decide))

/-- C7: when a subscriber's bounded queue is full, `publish` drops that
subscriber's oldest queued event and enqueues the new event at the back —
the newest event is never the one dropped and the queue stays at capacity;
every subscriber is updated independently of the others (`publish` is a
total function of the hub state, so it involves no waiting on consumers). -/
theorem publish_drop_oldest (e : DeltaEvent) (subs : List Subscriber)
    (sub : Subscriber) (hmem : sub ∈ subs)
    (hfull : sub.queue.length = sub.cap) (hcap : 0 < sub.cap) :
    publish e subs = subs.map (publishOne e) ∧
    publishOne e sub ∈ publish e subs ∧
    (publishOne e sub).queue = sub.queue.tail ++ [e] ∧
    (publishOne e sub).queue.getLast? = some e ∧
    (publishOne e sub).queue.length = sub.cap ∧
    (∃ x xs, sub.queue = x :: xs ∧ (publishOne e sub).queue = xs ++ [e]) := by
  have hne : sub.queue ≠ [] := by
    intro hnil
    rw [hnil] at hfull
    simp at hfull
    omega
  obtain ⟨x, xs, hxs⟩ : ∃ x xs, sub.queue = x :: xs :=
    match sub.queue, hne with
    | a :: l, _ => ⟨a, l, rfl⟩
  have hq : (publishOne e sub).queue = sub.queue.tail ++ [e] := by
    rw [publishOne, if_pos (by omega)]
  refine ⟨rfl, List.mem_map.2 ⟨sub, hmem, rfl⟩, hq, ?_, ?_, x, xs, hxs, ?_⟩
  · rw [hq, List.getLast?_concat]
  · rw [hq, List.length_append, List.length_tail, hfull]
    simp
    omega
  · rw [hq, hxs]
    rfl

/-- Witness for C7: a subscriber with capacity 2 and full queue
`[e1, e2]` receiving `e3` holds `[e2, e3]` afterwards. -/
theorem publish_drop_oldest_witness :
    publish ⟨3, 30⟩ [⟨1, 2, [⟨1, 10⟩, ⟨2, 20⟩]⟩] =
      [⟨1, 2, [⟨1, 10⟩, ⟨2, 20⟩]⟩].map (publishOne ⟨3, 30⟩) ∧
    publishOne ⟨3, 30⟩ ⟨1, 2, [⟨1, 10⟩, ⟨2, 20⟩]⟩ ∈
      publish ⟨3, 30⟩ [⟨1, 2, [⟨1, 10⟩, ⟨2, 20⟩]⟩] ∧
    (publishOne ⟨3, 30⟩ ⟨1, 2, [⟨1, 10⟩, ⟨2, 20⟩]⟩).queue =
      (Subscriber.mk 1 2 [⟨1, 10⟩, ⟨2, 20⟩]).queue.tail ++ [⟨3, 30⟩] ∧
    (publishOne ⟨3, 30⟩ ⟨1, 2, [⟨1, 10⟩, ⟨2, 20⟩]⟩).queue.getLast? =
      some ⟨3, 30⟩ ∧
    (publishOne ⟨3, 30⟩ ⟨1, 2, [⟨1, 10⟩, ⟨2, 20⟩]⟩).queue.length =
      (Subscriber.mk 1 2 [⟨1, 10⟩, ⟨2, 20⟩]).cap ∧
    (∃ x xs, (Subscriber.mk 1 2 [⟨1, 10⟩, ⟨2, 20⟩]).queue = x :: xs ∧
      (publishOne ⟨3, 30⟩ ⟨1, 2, [⟨1, 10⟩, ⟨2, 20⟩]⟩).queue = xs ++ [⟨3, 30⟩]) :=
  publish_drop_oldest ⟨3, 30⟩ [⟨1, 2, [⟨1, 10⟩, ⟨2, 20⟩]⟩]
    ⟨1, 2, [⟨1, 10⟩, ⟨2, 20⟩]⟩ (by decide) (by decide) (by decide)

end Scoreboard

namespace Scoreboard

theorem scoreOf_submitAction_le (cfg : Config) (now : Nat) (storeOk : Bool)
    (args : SubmitArgs) (s : CoreState) (u : Nat) :
    scoreOf s.scores u ≤ scoreOf (submitAction cfg now storeOk args s).2.scores u := by
  simp only [submitAction]
  split_ifs with h1 h2 h3 h4
  · exact Nat.le_refl _
  · exact Nat.le_refl _
  · exact Nat.le_refl _
  · exact Nat.le_refl _
  · show scoreOf s.scores u ≤
      scoreOf (applyIncrement s.scores args.userId args.increment now) u
    by_cases hu : u = args.userId
    · subst hu
      rw [scoreOf_applyIncrement]
      omega
    · rw [scoreOf_applyIncrement_ne _ _ _ _ _ hu]

/-- C3: no operation of the core ever decreases a user's score — each
`submitAction` leaves every score unchanged or increased, any batch of
`submitAction` calls is score-monotone step by step (so the score after
action `i` is at least the score after action `i-1`), and `queryTop` never
changes a score at all. -/
theorem score_monotone (cfg : Config) :
    (∀ now storeOk args s u,
      scoreOf s.scores u ≤
        scoreOf (submitAction cfg now storeOk args s).2.scores u) ∧
    (∀ calls s u,
      scoreOf s.scores u ≤ scoreOf (submitSeq cfg calls s).2.scores u) ∧
    (∀ limit now s u,
      scoreOf (queryTop cfg limit now s).2.scores u = scoreOf s.scores u) := by
  refine ⟨scoreOf_submitAction_le cfg, ?_, ?_⟩
  · intro calls
    induction calls with
    | nil => intro s u; exact Nat.le_refl _
    | cons c rest ih =>
      intro s u
      calc scoreOf s.scores u
          ≤ scoreOf (submitAction cfg c.1 c.2.1 c.2.2 s).2.scores u :=
            scoreOf_submitAction_le cfg c.1 c.2.1 c.2.2 s u
        _ ≤ _ := ih (submitAction cfg c.1 c.2.1 c.2.2 s).2 u
  · intro limit now s u
    rfl

/-- C2: the ActionRecord insert and the score increment of `submitAction`
commit as one atomic unit — on every accepted call both the new
ActionRecord is present and the user's score grew by the increment, on every
failed call neither the ActionRecord set nor the ScoreRecord set changed,
every call is either accepted or failed, and a store-transaction failure
during steps 2-3 (`storeOk = false` on an otherwise passing call) reports
`InternalError` with the store, cache and subscriber state all unchanged. -/
theorem submit_atomic (cfg : Config) (now : Nat) (storeOk : Bool)
    (args : SubmitArgs) (s : CoreState) :
    ((∃ n k, (submitAction cfg now storeOk args s).1 = .ok n k) →
      (submitAction cfg now storeOk args s).2.actions =
        ⟨args.userId, args.actionId, args.actionType, args.increment, now⟩ ::
          s.actions ∧
      scoreOf (submitAction cfg now storeOk args s).2.scores args.userId =
        scoreOf s.scores args.userId + args.increment) ∧
    ((∃ e, (submitAction cfg now storeOk args s).1 = .err e) →
      (submitAction cfg now storeOk args s).2.scores = s.scores ∧
      (submitAction cfg now storeOk args s).2.actions = s.actions) ∧
    ((∃ n k, (submitAction cfg now storeOk args s).1 = .ok n k) ∨
      (∃ e, (submitAction cfg now storeOk args s).1 = .err e)) ∧
    (validate cfg args.actionType args.increment = true →
     (allow cfg s.limiter args.userId now).1 = true →
     hasAction s.actions args.userId args.actionId = false →
     storeOk = false →
     (submitAction cfg now storeOk args s).1 = .err .InternalError ∧
     (submitAction cfg now storeOk args s).2.scores = s.scores ∧
     (submitAction cfg now storeOk args s).2.actions = s.actions ∧
     (submitAction cfg now storeOk args s).2.cache = s.cache ∧
     (submitAction cfg now storeOk args s).2.subs = s.subs) := by
  refine ⟨?_, ?_, ?_, ?_⟩
  · rintro ⟨n, k, hok⟩
    simp only [submitAction] at hok ⊢
    split_ifs at hok ⊢ with h1 h2 h3 h4
    exact ⟨rfl, scoreOf_applyIncrement s.scores args.userId args.increment now⟩
  · rintro ⟨e, herr⟩
    simp only [submitAction] at herr ⊢
    split_ifs at herr ⊢ with h1 h2 h3 h4
    all_goals exact ⟨rfl, rfl⟩
  · cases hres : (submitAction cfg now storeOk args s).1 with
    | ok n k => exact .inl ⟨n, k, rfl⟩
    | err e => exact .inr ⟨e, rfl⟩
  · intro hv hal hdup hok
    subst hok
    simp only [submitAction]
    rw [if_neg (by rw [hv]; simp)]
    rw [if_neg (by rw [hal]; simp)]
    rw [if_neg (by rw [hdup]; simp)]
    rw [if_pos trivial]
    exact ⟨rfl, rfl, rfl, rfl, rfl⟩

/-- Witness for C2: with the store oracle failing, a valid fresh submission
returns `InternalError` and the whole observable state is unchanged. -/
theorem submit_atomic_witness :
    ((∃ n k, (submitAction ⟨[("login", 100)], 60, 100, 5, 10⟩ 0 false
        ⟨1, 1, "login", 10⟩ ⟨[], [], [], ⟨[], 0, true, []⟩, []⟩).1 = .ok n k) ∨
      (∃ e, (submitAction ⟨[("login", 100)], 60, 100, 5, 10⟩ 0 false
        ⟨1, 1, "login", 10⟩ ⟨[], [], [], ⟨[], 0, true, []⟩, []⟩).1 = .err e)) ∧
    (submitAction ⟨[("login", 100)], 60, 100, 5, 10⟩ 0 false
        ⟨1, 1, "login", 10⟩ ⟨[], [], [], ⟨[], 0, true, []⟩, []⟩).1 =
      .err .InternalError ∧
    (submitAction ⟨[("login", 100)], 60, 100, 5, 10⟩ 0 false
        ⟨1, 1, "login", 10⟩ ⟨[], [], [], ⟨[], 0, true, []⟩, []⟩).2.scores = [] ∧
    (submitAction ⟨[("login", 100)], 60, 100, 5, 10⟩ 0 false
        ⟨1, 1, "login", 10⟩ ⟨[], [], [], ⟨[], 0, true, []⟩, []⟩).2.actions = [] := by
  have h := submit_atomic ⟨[("login", 100)], 60, 100, 5, 10⟩ 0 false
    ⟨1, 1, "login", 10⟩ ⟨[], [], [], ⟨[], 0, true, []⟩, []⟩
  obtain ⟨-, -, hdisj, hint⟩ := h
  obtain ⟨hres, hsc, hac, -, -⟩ :=
    hint (by decide) (by decide) (by decide) rfl
  exact ⟨hdisj, hres, hsc, hac⟩

end Scoreboard

namespace Scoreboard

/-- C1: submitting the same `(userId, actionId)` twice yields exactly one
accepted call and one `DuplicateAction` failure, and the user's score
changes exactly once — the duplicate call performs no score mutation.  The
first call is assumed accepted and the second call within rate quota (the
pipeline's rate check of section 4.1 runs before the idempotency check). -/
theorem submit_twice_duplicate (cfg : Config) (now1 now2 : Nat) (ok2 : Bool)
    (args : SubmitArgs) (s : CoreState) (n k : Nat)
    (h1 : (submitAction cfg now1 true args s).1 = .ok n k)
    (hallow2 : (allow cfg (submitAction cfg now1 true args s).2.limiter
        args.userId now2).1 = true) :
    (submitAction cfg now2 ok2 args
        (submitAction cfg now1 true args s).2).1 = .err .DuplicateAction ∧
    (submitAction cfg now2 ok2 args
        (submitAction cfg now1 true args s).2).2.scores =
      (submitAction cfg now1 true args s).2.scores ∧
    scoreOf (submitAction cfg now1 true args s).2.scores args.userId =
      scoreOf s.scores args.userId + args.increment ∧
    scoreOf (submitAction cfg now2 ok2 args
        (submitAction cfg now1 true args s).2).2.scores args.userId =
      scoreOf (submitAction cfg now1 true args s).2.scores args.userId := by
  simp only [submitAction] at h1
  split_ifs at h1 with hv hrl hdup
  set s1 := (submitAction cfg now1 true args s).2 with hs1def
  have hs' : s1 =
      { scores := applyIncrement s.scores args.userId args.increment now1,
        actions := ⟨args.userId, args.actionId, args.actionType,
          args.increment, now1⟩ :: s.actions,
        limiter := (allow cfg s.limiter args.userId now1).2,
        cache := notify cfg.K s.cache args.userId
          (scoreOf (applyIncrement s.scores args.userId args.increment now1)
            args.userId),
        subs := publish ⟨args.userId,
          scoreOf (applyIncrement s.scores args.userId args.increment now1)
            args.userId⟩ s.subs } := by
    rw [hs1def]
    simp only [submitAction]
    rw [if_neg hv, if_neg hrl, if_neg hdup, if_neg (by simp)]
  have hdup2 : hasAction s1.actions args.userId args.actionId = true := by
    rw [hs']
    simp [hasAction]
  have hnotfalse :
      ¬ ((allow cfg s1.limiter args.userId now2).1 = false) := by
    rw [hallow2]
    simp
  have h2 : submitAction cfg now2 ok2 args s1 =
      (.err .DuplicateAction,
       { s1 with limiter := (allow cfg s1.limiter args.userId now2).2 }) := by
    simp only [submitAction]
    rw [if_neg hv, if_neg hnotfalse, if_pos hdup2]
  refine ⟨by rw [h2], by rw [h2], ?_, by rw [h2]⟩
  rw [hs']
  exact scoreOf_applyIncrement s.scores args.userId args.increment now1

end Scoreboard

namespace Scoreboard

/-- Witness for C1: on an empty board, submitting action 1 for user 1 twice
gives one accepted call (score 10) and one `DuplicateAction` with no second
score change. -/
theorem submit_twice_duplicate_witness :
    (submitAction ⟨[("login", 100)], 60, 100, 5, 10⟩ 1 true ⟨1, 1, "login", 10⟩
        (submitAction ⟨[("login", 100)], 60, 100, 5, 10⟩ 0 true
          ⟨1, 1, "login", 10⟩ ⟨[], [], [], ⟨[], 0, true, []⟩, []⟩).2).1 =
      .err .DuplicateAction ∧
    (submitAction ⟨[("login", 100)], 60, 100, 5, 10⟩ 1 true ⟨1, 1, "login", 10⟩
        (submitAction ⟨[("login", 100)], 60, 100, 5, 10⟩ 0 true
          ⟨1, 1, "login", 10⟩ ⟨[], [], [], ⟨[], 0, true, []⟩, []⟩).2).2.scores =
      (submitAction ⟨[("login", 100)], 60, 100, 5, 10⟩ 0 true
          ⟨1, 1, "login", 10⟩ ⟨[], [], [], ⟨[], 0, true, []⟩, []⟩).2.scores ∧
    scoreOf (submitAction ⟨[("login", 100)], 60, 100, 5, 10⟩ 0 true
          ⟨1, 1, "login", 10⟩
          ⟨[], [], [], ⟨[], 0, true, []⟩, []⟩).2.scores 1 =
      scoreOf (CoreState.mk [] [] [] ⟨[], 0, true, []⟩ []).scores 1 + 10 ∧
    scoreOf (submitAction ⟨[("login", 100)], 60, 100, 5, 10⟩ 1 true
          ⟨1, 1, "login", 10⟩
          (submitAction ⟨[("login", 100)], 60, 100, 5, 10⟩ 0 true
            ⟨1, 1, "login", 10⟩
            ⟨[], [], [], ⟨[], 0, true, []⟩, []⟩).2).2.scores 1 =
      scoreOf (submitAction ⟨[("login", 100)], 60, 100, 5, 10⟩ 0 true
          ⟨1, 1, "login", 10⟩
          ⟨[], [], [], ⟨[], 0, true, []⟩, []⟩).2.scores 1 :=
  submit_twice_duplicate ⟨[("login", 100)], 60, 100, 5, 10⟩ 0 1 true
    ⟨1, 1, "login", 10⟩ ⟨[], [], [], ⟨[], 0, true, []⟩, []⟩ 10 1
    (by decide) (by decide)

end Scoreboard

namespace Scoreboard

theorem rankSort_sorted (st : List ScoreRecord) :
    List.Sorted rankOrder (rankSort st) :=
  List.sorted_insertionSort rankOrder st

/-- C4: the sequence returned by `queryTop 10` is sorted by score descending
with ties broken by earliest `lastUpdated`, under a total and transitive
(hence deterministic) rank order, and it equals a direct full recomputation
from the Score Store up to the staleness bound: either the recomputation of
the current store (the refresh path) or the recomputation of the store
snapshot the cache was generated from, that generation lying within
`epsilon` of now (the fresh-cache path).  `hwf` states the cache invariant
that the cached sequence is the top-K recomputation of its snapshot, and
`hK` fixes the spec's default `K = 10`. -/
theorem queryTop_sorted_fresh (cfg : Config) (now : Nat) (s : CoreState)
    (hK : cfg.K = 10)
    (hwf : s.cache.entries = (rankSort s.cache.snapshot).take cfg.K) :
    List.Sorted rankOrder (queryTop cfg 10 now s).1 ∧
    ((queryTop cfg 10 now s).1 = (rankSort s.scores).take 10 ∨
      ((queryTop cfg 10 now s).1 = (rankSort s.cache.snapshot).take 10 ∧
        now - s.cache.genTime < cfg.epsilon ∧ s.cache.stale = false)) ∧
    (∀ a b, rankOrder a b ∨ rankOrder b a) ∧
    (∀ a b c, rankOrder a b → rankOrder b c → rankOrder a c) := by
  refine ⟨?_, ?_, fun a b => IsTotal.total a b,
    fun a b c hab hbc => IsTrans.trans a b c hab hbc⟩
  · show List.Sorted rankOrder (query cfg 10 now s.scores s.cache).1
    rw [query]
    split_ifs with h
    · show List.Sorted rankOrder (s.cache.entries.take 10)
      rw [hwf]
      exact List.Pairwise.sublist
        (List.Sublist.trans (List.take_sublist _ _) (List.take_sublist _ _))
        (rankSort_sorted s.cache.snapshot)
    · exact List.Pairwise.sublist (List.take_sublist _ _)
        (rankSort_sorted s.scores)
  · have hq : (queryTop cfg 10 now s).1 =
        (query cfg 10 now s.scores s.cache).1 := rfl
    rw [hq, query]
    split_ifs with h
    · refine .inr ⟨?_, h.2.1, h.1⟩
      show s.cache.entries.take 10 = _
      rw [hwf, hK, List.take_take]
      simp
    · exact .inl rfl

/-- Witness for C4: a stale cache over the two-user store forces a refresh;
the output is the recomputation `[user 2 (score 50), user 1 (score 10)]`. -/
theorem queryTop_sorted_fresh_witness :
    List.Sorted rankOrder
      (queryTop ⟨[("login", 100)], 60, 100, 5, 10⟩ 10 7
        ⟨[⟨1, 10, 0⟩, ⟨2, 50, 1⟩], [], [], ⟨[], 0, true, []⟩, []⟩).1 ∧
    ((queryTop ⟨[("login", 100)], 60, 100, 5, 10⟩ 10 7
        ⟨[⟨1, 10, 0⟩, ⟨2, 50, 1⟩], [], [], ⟨[], 0, true, []⟩, []⟩).1 =
      (rankSort [⟨1, 10, 0⟩, ⟨2, 50, 1⟩]).take 10 ∨
      ((queryTop ⟨[("login", 100)], 60, 100, 5, 10⟩ 10 7
          ⟨[⟨1, 10, 0⟩, ⟨2, 50, 1⟩], [], [], ⟨[], 0, true, []⟩, []⟩).1 =
        (rankSort (CacheState.mk [] 0 true []).snapshot).take 10 ∧
        7 - (CacheState.mk [] 0 true []).genTime < 5 ∧
        (CacheState.mk [] 0 true []).stale = false)) ∧
    (∀ a b, rankOrder a b ∨ rankOrder b a) ∧
    (∀ a b c, rankOrder a b → rankOrder b c → rankOrder a c) :=
  queryTop_sorted_fresh ⟨[("login", 100)], 60, 100, 5, 10⟩ 7
    ⟨[⟨1, 10, 0⟩, ⟨2, 50, 1⟩], [], [], ⟨[], 0, true, []⟩, []⟩ rfl (by decide)

end Scoreboard

namespace Scoreboard

theorem cacheWF_submitAction (cfg : Config) (now : Nat) (storeOk : Bool)
    (args : SubmitArgs) (s : CoreState)
    (hwf : s.cache.entries = (rankSort s.cache.snapshot).take cfg.K) :
    (submitAction cfg now storeOk args s).2.cache.entries =
      (rankSort (submitAction cfg now storeOk args s).2.cache.snapshot).take
        cfg.K := by
  simp only [submitAction]
  split_ifs with h1 h2 h3 h4
  · exact hwf
  · exact hwf
  · exact hwf
  · exact hwf
  · simp only [notify]
    split_ifs with h
    · exact hwf
    · exact hwf

theorem cacheWF_queryTop (cfg : Config) (limit now : Nat) (s : CoreState)
    (hwf : s.cache.entries = (rankSort s.cache.snapshot).take cfg.K) :
    (queryTop cfg limit now s).2.cache.entries =
      (rankSort (queryTop cfg limit now s).2.cache.snapshot).take cfg.K := by
  show (query cfg limit now s.scores s.cache).2.entries =
    (rankSort (query cfg limit now s.scores s.cache).2.snapshot).take cfg.K
  rw [query]
  split_ifs with h
  · exact hwf
  · rfl

theorem limCount_limSet (lim : List ((Nat × Nat) × Nat)) (k : Nat × Nat)
    (c : Nat) : limCount (limSet lim k c) k = c := by
  rw [limSet]
  split_ifs with h
  · induction lim with
    | nil => simp at h
    | cons p t ih =>
      by_cases hp : p.1 = k
      · simp only [List.map_cons, if_pos hp]
        rw [limCount, List.find?_cons_of_pos _ (by simp)]
        rfl
      · simp only [List.map_cons, if_neg hp]
        rw [limCount, List.find?_cons_of_neg _ (by simpa using hp)]
        have ht : t.any (fun p => decide (p.1 = k)) = true := by
          simpa [hp] using h
        exact ih ht
  · rw [limCount, List.find?_cons_of_pos _ (by simp)]
    rfl

end Scoreboard

namespace Scoreboard

theorem submitAction_accept (cfg : Config) (t : Nat) (args : SubmitArgs)
    (s : CoreState)
    (hval : validate cfg args.actionType args.increment = true)
    (hc : limCount s.limiter (args.userId, bucketOf cfg t) < cfg.maxCount)
    (hdup : hasAction s.actions args.userId args.actionId = false) :
    (∃ n r, (submitAction cfg t true args s).1 = .ok n r) ∧
    (submitAction cfg t true args s).2.limiter =
      limSet s.limiter (args.userId, bucketOf cfg t)
        (limCount s.limiter (args.userId, bucketOf cfg t) + 1) ∧
    (submitAction cfg t true args s).2.actions =
      ⟨args.userId, args.actionId, args.actionType, args.increment, t⟩ ::
        s.actions := by
  have hal : allow cfg s.limiter args.userId t =
      (true, limSet s.limiter (args.userId, bucketOf cfg t)
        (limCount s.limiter (args.userId, bucketOf cfg t) + 1)) := by
    simp only [allow]
    rw [if_pos hc]
  have h1 : ¬ (validate cfg args.actionType args.increment = false) := by
    rw [hval]; simp
  have h2 : ¬ ((allow cfg s.limiter args.userId t).1 = false) := by
    rw [hal]; simp
  have h3 : ¬ (hasAction s.actions args.userId args.actionId = true) := by
    rw [hdup]; simp
  have hres : (submitAction cfg t true args s).1 =
      .ok (scoreOf (applyIncrement s.scores args.userId args.increment t)
            args.userId)
        (rankIn (applyIncrement s.scores args.userId args.increment t)
          args.userId) := by
    simp only [submitAction]
    rw [if_neg h1, if_neg h2, if_neg h3, if_neg (by simp)]
  refine ⟨⟨_, _, hres⟩, ?_, ?_⟩
  · show (submitAction cfg t true args s).2.limiter = _
    simp only [submitAction]
    rw [if_neg h1, if_neg h2, if_neg h3, if_neg (by simp)]
    rw [hal]
  · simp only [submitAction]
    rw [if_neg h1, if_neg h2, if_neg h3, if_neg (by simp)]

theorem submitAction_rate_limited (cfg : Config) (t : Nat) (storeOk : Bool)
    (args : SubmitArgs) (s : CoreState)
    (hval : validate cfg args.actionType args.increment = true)
    (hc : ¬ limCount s.limiter (args.userId, bucketOf cfg t) < cfg.maxCount) :
    (submitAction cfg t storeOk args s).1 = .err .RateLimited := by
  have hal : allow cfg s.limiter args.userId t = (false, s.limiter) := by
    simp only [allow]
    rw [if_neg hc]
  simp only [submitAction]
  rw [if_neg (by rw [hval]; simp)]
  rw [if_pos (by rw [hal])]

theorem hasAction_cons (r : ActionRecord) (acts : List ActionRecord)
    (u a : Nat) :
    hasAction (r :: acts) u a =
      (decide (r.userId = u ∧ r.actionId = a) || hasAction acts u a) := rfl

theorem mkCalls_succ (u : Nat) (ty : String) (inc a0 t m : Nat) :
    mkCalls u ty inc a0 t (m + 1) =
      mkCalls u ty inc a0 t m ++ [(t, true, ⟨u, a0 + m, ty, inc⟩)] := by
  induction m generalizing a0 with
  | zero => simp [mkCalls]
  | succ k ih =>
    show (t, true, (⟨u, a0, ty, inc⟩ : SubmitArgs)) ::
        mkCalls u ty inc (a0 + 1) t (k + 1) = _
    rw [ih (a0 + 1)]
    show _ = ((t, true, (⟨u, a0, ty, inc⟩ : SubmitArgs)) ::
        mkCalls u ty inc (a0 + 1) t k) ++ [(t, true, ⟨u, a0 + (k + 1), ty, inc⟩)]
    rw [List.cons_append]
    have harith : a0 + 1 + k = a0 + (k + 1) := by omega
    rw [harith]

theorem submitSeq_append (cfg : Config) (l1 l2 : List (Nat × Bool × SubmitArgs))
    (s : CoreState) :
    submitSeq cfg (l1 ++ l2) s =
      ((submitSeq cfg l1 s).1 ++
        (submitSeq cfg l2 (submitSeq cfg l1 s).2).1,
       (submitSeq cfg l2 (submitSeq cfg l1 s).2).2) := by
  induction l1 generalizing s with
  | nil => simp [submitSeq]
  | cons c rest ih =>
    rw [List.cons_append]
    show ((submitAction cfg c.1 c.2.1 c.2.2 s).1 ::
        (submitSeq cfg (rest ++ l2) (submitAction cfg c.1 c.2.1 c.2.2 s).2).1,
      (submitSeq cfg (rest ++ l2) (submitAction cfg c.1 c.2.1 c.2.2 s).2).2) = _
    rw [ih]
    rfl

end Scoreboard

namespace Scoreboard

theorem submitSeq_mkCalls_run (cfg : Config) (u : Nat) (ty : String)
    (inc t : Nat) (hval : validate cfg ty inc = true) :
    ∀ (m : Nat) (s : CoreState) (a0 : Nat),
      limCount s.limiter (u, bucketOf cfg t) + m ≤ cfg.maxCount →
      (∀ i, i < m → hasAction s.actions u (a0 + i) = false) →
      (∀ j, j < m → ∃ n r,
        (submitSeq cfg (mkCalls u ty inc a0 t m) s).1[j]? =
          some (.ok n r)) ∧
      limCount (submitSeq cfg (mkCalls u ty inc a0 t m) s).2.limiter
          (u, bucketOf cfg t) =
        limCount s.limiter (u, bucketOf cfg t) + m ∧
      (submitSeq cfg (mkCalls u ty inc a0 t m) s).1.length = m := by
  intro m
  induction m with
  | zero =>
    intro s a0 hcnt hnew
    exact ⟨fun j hj => absurd hj (Nat.not_lt_zero j),
      by simp [mkCalls, submitSeq], rfl⟩
  | succ m ih =>
    intro s a0 hcnt hnew
    have hc : limCount s.limiter (u, bucketOf cfg t) < cfg.maxCount := by
      omega
    have hd : hasAction s.actions u a0 = false := by
      simpa using hnew 0 (Nat.succ_pos m)
    obtain ⟨hok1, hlim1, hact1⟩ :=
      submitAction_accept cfg t ⟨u, a0, ty, inc⟩ s hval hc hd
    have hcount1 : limCount
        (submitAction cfg t true ⟨u, a0, ty, inc⟩ s).2.limiter
        (u, bucketOf cfg t) =
        limCount s.limiter (u, bucketOf cfg t) + 1 := by
      rw [hlim1]
      exact limCount_limSet _ _ _
    have hnew1 : ∀ i, i < m →
        hasAction (submitAction cfg t true ⟨u, a0, ty, inc⟩ s).2.actions u
          ((a0 + 1) + i) = false := by
      intro i hi
      rw [hact1, hasAction_cons]
      have hne : decide ((⟨u, a0, ty, inc, t⟩ : ActionRecord).userId = u ∧
          (⟨u, a0, ty, inc, t⟩ : ActionRecord).actionId = (a0 + 1) + i) =
            false := by
        simp only [decide_eq_false_iff_not]
        intro hcon
        have := hcon.2
        simp at this
        omega
      rw [hne]
      have harith : (a0 + 1) + i = a0 + (1 + i) := by omega
      rw [harith]
      simpa using hnew (1 + i) (by omega)
    have hrest := ih (submitAction cfg t true ⟨u, a0, ty, inc⟩ s).2 (a0 + 1)
      (by rw [hcount1]; omega) hnew1
    have hseq : submitSeq cfg (mkCalls u ty inc a0 t (m + 1)) s =
        ((submitAction cfg t true ⟨u, a0, ty, inc⟩ s).1 ::
          (submitSeq cfg (mkCalls u ty inc (a0 + 1) t m)
            (submitAction cfg t true ⟨u, a0, ty, inc⟩ s).2).1,
         (submitSeq cfg (mkCalls u ty inc (a0 + 1) t m)
           (submitAction cfg t true ⟨u, a0, ty, inc⟩ s).2).2) := rfl
    refine ⟨?_, ?_, ?_⟩
    · intro j hj
      cases j with
      | zero =>
        obtain ⟨n, r, hnr⟩ := hok1
        exact ⟨n, r, by rw [hseq]; simpa using hnr⟩
      | succ j' =>
        rw [hseq]
        simpa using hrest.1 j' (by omega)
    · rw [hseq]
      show limCount (submitSeq cfg (mkCalls u ty inc (a0 + 1) t m)
        (submitAction cfg t true ⟨u, a0, ty, inc⟩ s).2).2.limiter
        (u, bucketOf cfg t) = _
      rw [hrest.2.1, hcount1]
      omega
    · rw [hseq]
      simpa using hrest.2.2

end Scoreboard

namespace Scoreboard

/-- C5: rate limiting is boundary-exact.  For a user with a fresh window
counter making `maxCount + 1` otherwise-valid submissions (valid
actionType/increment, fresh actionIds) inside one window bucket, the
`maxCount`-th call is accepted and the `(maxCount + 1)`-th call is rejected
with `RateLimited`. -/
theorem rate_limit_boundary (cfg : Config) (u : Nat) (ty : String)
    (inc a0 t : Nat) (s : CoreState)
    (hval : validate cfg ty inc = true)
    (hM : 0 < cfg.maxCount)
    (hfresh : limCount s.limiter (u, bucketOf cfg t) = 0)
    (hnew : ∀ i, i < cfg.maxCount → hasAction s.actions u (a0 + i) = false) :
    (∃ n r, (submitSeq cfg (mkCalls u ty inc a0 t (cfg.maxCount + 1)) s).1[
        (cfg.maxCount - 1)]? = some (.ok n r)) ∧
    (submitSeq cfg (mkCalls u ty inc a0 t (cfg.maxCount + 1)) s).1[
        cfg.maxCount]? = some (.err .RateLimited) := by
  obtain ⟨hoks, hcnt, hlen⟩ :=
    submitSeq_mkCalls_run cfg u ty inc t hval cfg.maxCount s a0
      (by omega) hnew
  have hlast : (submitAction cfg t true ⟨u, a0 + cfg.maxCount, ty, inc⟩
      (submitSeq cfg (mkCalls u ty inc a0 t cfg.maxCount) s).2).1 =
      .err .RateLimited := by
    apply submitAction_rate_limited
    · exact hval
    · rw [hcnt, hfresh]
      omega
  rw [mkCalls_succ, submitSeq_append]
  constructor
  · obtain ⟨n, r, hj⟩ := hoks (cfg.maxCount - 1) (by omega)
    refine ⟨n, r, ?_⟩
    rw [List.getElem?_append_left (by rw [hlen]; omega)]
    exact hj
  · rw [List.getElem?_append_right (by rw [hlen])]
    rw [hlen, Nat.sub_self]
    show (((submitAction cfg t true ⟨u, a0 + cfg.maxCount, ty, inc⟩
      (submitSeq cfg (mkCalls u ty inc a0 t cfg.maxCount) s).2).1 ::
        ([] : List SubmitResult)))[0]? = _
    rw [List.getElem?_cons_zero, hlast]

/-- Witness for C5 with `maxCount = 2`: of three valid submissions in one
window, the second (index 1) is accepted and the third (index 2) is
`RateLimited`. -/
theorem rate_limit_boundary_witness :
    (∃ n r, (submitSeq ⟨[("login", 100)], 60, 2, 5, 10⟩
        (mkCalls 1 "login" 10 1 0 (2 + 1))
        ⟨[], [], [], ⟨[], 0, true, []⟩, []⟩).1[(2 - 1 : Nat)]? =
      some (.ok n r)) ∧
    (submitSeq ⟨[("login", 100)], 60, 2, 5, 10⟩
        (mkCalls 1 "login" 10 1 0 (2 + 1))
        ⟨[], [], [], ⟨[], 0, true, []⟩, []⟩).1[(2 : Nat)]? =
      some (.err .RateLimited) := by
  have h := rate_limit_boundary ⟨[("login", 100)], 60, 2, 5, 10⟩ 1 "login"
    10 1 0 ⟨[], [], [], ⟨[], 0, true, []⟩, []⟩ (by decide) (by decide)
    (by decide) (fun i hi => by simp [hasAction])
  exact h

end Scoreboard
